import Mathlib

/-!
# Verification of the onboard-computer dependency/installation orchestration engine

Shallow embedding of the orchestration core of the onboard-computer app:
the renderer-side orchestrator (`src/electron/renderer.js`) and the
main-process shell/config handlers (the `main.js` sources appended in
`src/website/skill.md`).

Conventions of the embedding:
* JS objects keyed by item id (`toolStates`, `appStates`, `terminalOutputs`,
  `activeProcesses`) are modelled as association lists with a JS-`Map`/object
  style `set` (replace the existing binding, or append).
* JS `undefined` object fields read through optional chaining are modelled by
  their falsy defaults (`false` for booleans, `none` for strings), which is
  how every consumption site in the source treats them.
* Shell execution is an oracle: buffered runs are a function
  `String → RunResult`, streaming runs a function
  `String → String → StreamResult` (command, correlation id).
* Async/await sequences in the single-threaded renderer are modelled as
  sequential state-passing functions; DOM side effects that the claims
  mention (clearing terminals, warnings, spawns, activity log writes,
  re-checks) are reified as an `Effect` trace.
-/

namespace Onboard

/-! ## Data model: items and per-item state (renderer.js lines 30-46) -/

/-- An installable item (tool or app) as loaded from a `.onboard` config:
`{ id, name, check, install, depends_on?, desc, icon fields }`.
Icon/desc presentation fields are irrelevant to every claim and omitted. -/
structure Item where
  id : String
  name : String
  check : String
  install : String
  depends_on : Option String := none
  deriving Repr, DecidableEq

/-- The status strings stored in `toolStates[id].status` / `appStates[id].status`:
only `'unchecked'`, `'checking'`, `'checked'` ever appear in renderer.js. -/
inductive Status where
  | unchecked
  | checking
  | checked
  deriving Repr, DecidableEq

/-- One entry of `toolStates` / `appStates`:
`{ status, installed, installing, version, latestVersion, hasUpdate }`.
Fields a JS object literal omits are the falsy defaults below. -/
structure ItemState where
  status : Status := .unchecked
  installed : Bool := false
  installing : Bool := false
  version : Option String := none
  latestVersion : Option String := none
  hasUpdate : Bool := false
  deriving Repr, DecidableEq

/-- A state store (`toolStates` or `appStates`): a JS object keyed by item id. -/
def StateMap : Type := List (String × ItemState)

instance : DecidableEq StateMap := by
  unfold StateMap
  infer_instance

/-- `states[id]` — JS property read, `undefined` as `none`. -/
def lookupState : StateMap → String → Option ItemState
  | [], _ => none
  | (k, v) :: rest, id => if k = id then some v else lookupState rest id

/-- `states[id] = st` — JS property write: replaces the binding if the key is
present, otherwise adds it. -/
def setState (ts : StateMap) (id : String) (st : ItemState) : StateMap :=
  match ts with
  | [] => [(id, st)]
  | (k, v) :: rest =>
      if k = id then (id, st) :: rest else (k, v) :: setState rest id st

/-- `states[id]` materialised for a spread `{...states[id], f: x}`:
an absent entry spreads to the all-falsy-defaults object. -/
def getOrInit (ts : StateMap) (id : String) : ItemState :=
  (lookupState ts id).getD {}

/-- `states[id]?.installed` — optional chaining, `undefined` is falsy. -/
def getInstalled (ts : StateMap) (id : String) : Bool :=
  ((lookupState ts id).map (·.installed)).getD false

/-! ## C3: the two eligibility gates and the spec predicate -/

/-- The dependency gate of the per-item Install affordance
(renderer.js `renderAction`, lines 277-289): the Install button is replaced by
a disabled `Needs <dep>` button only when `depState && !depState.installed`,
i.e. only when a state entry for the dependency exists and is not installed.
Returns `true` when the Install button is offered. -/
def renderActionEligible (ts : StateMap) (item : Item) : Bool :=
  match item.depends_on with
  | none => true
  | some dep =>
      match lookupState ts dep with
      | some depState => depState.installed
      | none => true

/-- The dependency gate of the batch pass (renderer.js `installAllDeps`,
line 893): `if (tool.depends_on && !toolStates[tool.depends_on]?.installed)
continue;`. Returns `true` when the item is not skipped for its dependency. -/
def batchEligible (ts : StateMap) (item : Item) : Bool :=
  match item.depends_on with
  | none => true
  | some dep => getInstalled ts dep

/-- Modelled from the spec's words (for comparison only):
`isEligible(item, stateStore)` is true iff `item.dependsOn` is absent or
`stateStore[item.dependsOn].installed == true`; a `dependsOn` naming an id
with no state store entry is not eligible. -/
def isEligibleSpec (ts : StateMap) (item : Item) : Bool :=
  match item.depends_on with
  | none => true
  | some dep =>
      match lookupState ts dep with
      | some depState => depState.installed
      | none => false

/-- Example item whose `depends_on` names an id with no state store entry. -/
def ghostDepItem : Item :=
  { id := "b", name := "B", check := "which b", install := "brew install b",
    depends_on := some "ghost" }

/-- Example item depending on `"a"`, and a store where `"a"` is installed. -/
def depOnAItem : Item :=
  { id := "b", name := "B", check := "which b", install := "brew install b",
    depends_on := some "a" }

/-- A store with an installed entry for `"a"`. -/
def storeWithA : StateMap :=
  [("a", { status := .checked, installed := true })]

/-! ## C9: terminal buffer (renderer.js lines 39, 955-982) -/

/-- One buffered line: `{ text, stream }`. -/
structure TermLine where
  text : String
  stream : String
  deriving Repr, DecidableEq

/-- `const MAX_TERMINAL_LINES = 200` (renderer.js line 39). -/
def MAX_TERMINAL_LINES : Nat := 200

/-- One iteration of the `lines.forEach` body in `appendTerminalOutput`:
`lines.push({text, stream}); if (lines.length > MAX_TERMINAL_LINES) lines.shift();`. -/
def pushLine (buf : List TermLine) (l : TermLine) : List TermLine :=
  let b := buf ++ [l]
  if MAX_TERMINAL_LINES < b.length then b.tail else b

/-- `data.split('\n').filter(l => l.length > 0)` tagged with the stream. -/
def linesOf (data : String) (stream : String) : List TermLine :=
  ((data.splitOn "\n").filter (fun l => decide (0 < l.length))).map
    (fun t => { text := t, stream := stream })

/-- `appendTerminalOutput(id, data, stream)` restricted to the one buffer it
touches (renderer.js lines 966-982): split the chunk into non-empty lines and
push each, trimming to the cap as it goes. -/
def appendTerminalOutput (buf : List TermLine) (data : String) (stream : String) :
    List TermLine :=
  (linesOf data stream).foldl pushLine buf

/-- The last `n` elements of a list. -/
def takeLast (n : Nat) (l : List α) : List α := l.drop (l.length - n)

/-- Buffer contents after a sequence of streamed chunks, starting from the
empty buffer `initTerminalOutput` creates. -/
def terminalAfter (chunks : List (String × String)) : List TermLine :=
  chunks.foldl (fun b c => appendTerminalOutput b c.1 c.2) []

/-- All non-empty lines ever streamed, in arrival order. -/
def allStreamedLines (chunks : List (String × String)) : List TermLine :=
  (chunks.map (fun c => linesOf c.1 c.2)).flatten

/-! ## Process executor results (main.js `runCommand`, `shell:runStreamingWithId`) -/

/-- Result shape of a buffered run (`window.onboard.run` → main.js `runCommand`):
`{ stdout, stderr, exitCode, succeeded }`. -/
structure RunResult where
  stdout : String := ""
  stderr : String := ""
  exitCode : Int := 0
  succeeded : Bool := false
  deriving Repr, DecidableEq

/-- Result shape of `shell:runStreamingWithId`:
`{ stdout, stderr, exitCode, succeeded, cancelled }`. -/
structure StreamResult where
  stdout : String := ""
  stderr : String := ""
  exitCode : Int := 0
  succeeded : Bool := false
  cancelled : Bool := false
  deriving Repr, DecidableEq

/-- The environment the renderer orchestration runs against: buffered runs,
streaming runs keyed by correlation id, and the version-enrichment queries of
`getToolVersion` (brew listings / `--version` probing), abstracted to the
triple `(version, latestVersion, hasUpdate)` it produces — no claim depends on
how those values are derived. -/
structure ShellOracle where
  run : String → RunResult
  runS : String → String → StreamResult
  enrich : Item → Option String × Option String × Bool

/-- Observable renderer side effects the claims talk about, in program order. -/
inductive Effect where
  | clearTerminal (id : String)
  | terminalActive (id : String) (active : Bool)
  | statusMsg (text : String)
  | spawnStreaming (cmd : String) (id : String)
  | warn (message : String)
  | activity (action : String) (name : String) (version : Option String)
  | recheck (id : String)
  deriving Repr, DecidableEq

/-! ## Checking (renderer.js lines 421-455, 582-603) -/

/-- `checkToolFast(tool)` (lines 421-430): run the check buffered and record
`{...toolStates[id], status: 'checked', installed: result.succeeded}`. -/
def checkToolFastM (o : ShellOracle) (ts : StateMap) (t : Item) : StateMap :=
  setState ts t.id
    { getOrInit ts t.id with
        status := .checked
        installed := (o.run t.check).succeeded }

/-- `enrichToolVersion(tool)` (lines 433-444): no-op unless the item is
installed; otherwise merge the version triple into the state. -/
def enrichToolM (o : ShellOracle) (ts : StateMap) (t : Item) : StateMap :=
  if getInstalled ts t.id then
    let vi := o.enrich t
    setState ts t.id
      { getOrInit ts t.id with
          version := vi.1
          latestVersion := vi.2.1
          hasUpdate := vi.2.2 }
  else ts

/-- `checkTool(tool)` (lines 447-455): reset to
`{ status: 'checking', installed: false }`, fast check, then enrich if the
check said installed. -/
def checkToolM (o : ShellOracle) (ts : StateMap) (t : Item) : StateMap :=
  let ts1 := setState ts t.id { status := .checking, installed := false }
  let ts2 := checkToolFastM o ts1 t
  if getInstalled ts2 t.id then enrichToolM o ts2 t else ts2

/-! ## installTool (renderer.js lines 607-642) -/

/-- `installTool(toolId)`: locate the tool (silent return if absent), clear the
item's terminal, activate it, set `installing: true`, spawn the streaming
install, set `installing: false`, deactivate; then branch on
cancelled / succeeded / failed exactly as lines 626-641. Returns the updated
`toolStates` and the reified effect trace. -/
def installTool (cfg : List Item) (o : ShellOracle) (ts : StateMap)
    (toolId : String) : StateMap × List Effect :=
  match cfg.find? (fun t => t.id = toolId) with
  | none => (ts, [])
  | some tool =>
      let terminalId := "tool-" ++ toolId
      let ts1 := setState ts toolId { getOrInit ts toolId with installing := true }
      let result := o.runS tool.install terminalId
      let ts2 := setState ts1 toolId { getOrInit ts1 toolId with installing := false }
      let preEffects : List Effect :=
        [.clearTerminal terminalId, .terminalActive terminalId true,
         .statusMsg ("Installing " ++ tool.name ++ "..."),
         .spawnStreaming tool.install terminalId,
         .terminalActive terminalId false]
      if result.cancelled then
        (ts2, preEffects ++ [.statusMsg "Installation cancelled"])
      else if result.succeeded then
        let ts3 := checkToolM o ts2 tool
        let version := (lookupState ts3 toolId).bind (·.version)
        (ts3, preEffects ++ [.recheck toolId, .activity "installed" tool.name version])
      else
        (ts2, preEffects ++
          [.warn ("Failed to install " ++ tool.name),
           .activity "failed" ("install " ++ tool.name) none])

/-! ## Batch install (renderer.js `installAllDeps`, lines 885-899) -/

/-- `installAllDeps()`: iterate the config's dependencies in order; skip items
already installed; skip items whose `depends_on` is not installed
(`if (tool.depends_on && !toolStates[tool.depends_on]?.installed) continue`);
otherwise `await installTool(tool.id)`. The second component of the
accumulator records, for each attempted item, the state store at the moment
of the attempt. `installAllStep` is one loop iteration. -/
def installAllStep (cfg : List Item) (o : ShellOracle)
    (acc : StateMap × List (Item × StateMap)) (tool : Item) :
    StateMap × List (Item × StateMap) :=
  if getInstalled acc.1 tool.id then acc
  else if batchEligible acc.1 tool then
    ((installTool cfg o acc.1 tool.id).1, acc.2 ++ [(tool, acc.1)])
  else acc

def installAllDeps (cfg : List Item) (o : ShellOracle) (ts : StateMap) :
    StateMap × List (Item × StateMap) :=
  cfg.foldl (installAllStep cfg o) (ts, [])

/-! ## Main-process live-process registry
(skill.md-appended main.js, `shell:runStreamingWithId` lines 448-494 and
`shell:cancelProcess` lines 497-505) -/

/-- One entry of the `activeProcesses` Map: `{ child, cancelled }`, with the
OS process handle identified by a numeric pid. -/
structure ProcInfo where
  proc : Nat
  cancelled : Bool
  deriving Repr, DecidableEq

/-- `activeProcesses.get(id)`. -/
def regLookup : List (String × ProcInfo) → String → Option ProcInfo
  | [], _ => none
  | (k, v) :: rest, id => if k = id then some v else regLookup rest id

/-- `activeProcesses.set(id, v)` — JS Map semantics: replace or add. -/
def regSet (r : List (String × ProcInfo)) (id : String) (v : ProcInfo) :
    List (String × ProcInfo) :=
  match r with
  | [] => [(id, v)]
  | (k, w) :: rest =>
      if k = id then (id, v) :: rest else (k, w) :: regSet rest id v

/-- `activeProcesses.delete(id)`. -/
def regDelete (r : List (String × ProcInfo)) (id : String) :
    List (String × ProcInfo) :=
  match r with
  | [] => []
  | (k, w) :: rest => if k = id then rest else (k, w) :: regDelete rest id

/-- The shared mutable state of the streaming executor: the registry plus the
set of live OS processes and those sent SIGTERM. -/
structure ShellWorld where
  registry : List (String × ProcInfo)
  live : List Nat
  signalled : List Nat
  deriving Repr, DecidableEq

/-- Events of the streaming executor. `start` is the body of
`shell:runStreamingWithId` up to and including
`activeProcesses.set(id, { child, cancelled: false })`; `cancel` is
`shell:cancelProcess`; `close id p` is the `'close'` callback of the child `p`
that was spawned under `id` (it reads and deletes `activeProcesses.get(id)`). -/
inductive ShellEvent where
  | start (id : String) (proc : Nat)
  | cancel (id : String)
  | close (id : String) (proc : Nat)
  deriving Repr, DecidableEq

def stepShell (w : ShellWorld) : ShellEvent → ShellWorld
  | .start id p =>
      { registry := regSet w.registry id { proc := p, cancelled := false },
        live := p :: w.live,
        signalled := w.signalled }
  | .cancel id =>
      match regLookup w.registry id with
      | some pi =>
          { registry := regSet w.registry id { pi with cancelled := true },
            live := w.live,
            signalled := pi.proc :: w.signalled }
      | none => w
  | .close id p =>
      { registry := regDelete w.registry id,
        live := w.live.erase p,
        signalled := w.signalled }

/-- The `cancelled` field of the result the `'close'` handler resolves with:
`const cancelled = activeProcesses.get(id)?.cancelled || false`. -/
def closeResultCancelled (w : ShellWorld) (id : String) : Bool :=
  ((regLookup w.registry id).map (·.cancelled)).getD false

/-- The empty initial world (`const activeProcesses = new Map()`). -/
def initialWorld : ShellWorld := { registry := [], live := [], signalled := [] }

/-- Run a trace of events from a world. -/
def runTrace (w : ShellWorld) (evs : List ShellEvent) : ShellWorld :=
  evs.foldl stepShell w

/-! ## Concrete fixtures -/

/-! ## Concrete fixtures for C1, C4, C5 -/

/-- Example tool without dependency. -/
def itemA : Item :=
  { id := "a", name := "A", check := "which a", install := "brew install a" }

/-- Example tool depending on `itemA`. -/
def itemB : Item :=
  { id := "b", name := "B", check := "which b", install := "brew install b",
    depends_on := some "a" }

/-- Two-item config: `b` depends on `a`. -/
def cfgAB : List Item := [itemA, itemB]

/-- Store where both items are checked and not installed — so `itemB` is
ineligible. -/
def notInstalledStore : StateMap :=
  [("a", { status := .checked }), ("b", { status := .checked })]

/-- Oracle where every command succeeds and enrichment yields nothing. -/
def plainOracle : ShellOracle :=
  { run := fun _ => { succeeded := true }
    runS := fun _ _ => { succeeded := true }
    enrich := fun _ => (none, none, false) }

/-- Oracle where each streaming run reports a cancellation. -/
def cancelOracle : ShellOracle :=
  { run := fun _ => { succeeded := true }
    runS := fun _ _ => { cancelled := true }
    enrich := fun _ => (none, none, false) }

/-- Registry with one live process under `"tool-b"`. -/
def oneProcWorld : ShellWorld :=
  { registry := [("tool-b", { proc := 1, cancelled := false })],
    live := [1], signalled := [] }

/-- A tool whose install command is not a brew invocation (the Rust
rustup-style install from the config mapping table). -/
def itemRust : Item :=
  { id := "rust", name := "Rust", check := "which rustc",
    install := "curl -sSf https://sh.rustup.rs | sh" }

/-- One-item config around `itemRust`. -/
def cfgRust : List Item := [itemRust]

/-! ## Uninstall/upgrade command derivation
(renderer.js `doUninstallTool` lines 659-704, `upgradeTool` lines 706-754):
`installCmd.match(/brew install\s+(--cask\s+)?(\S+)/)` -/

/-- JS `\s`: the ECMAScript whitespace and line-terminator characters. -/
def jsWS (c : Char) : Bool :=
  c.val = 9 || c.val = 10 || c.val = 11 || c.val = 12 || c.val = 13 ||
  c.val = 32 || c.val = 0xa0 || c.val = 0x1680 ||
  (0x2000 ≤ c.val && c.val ≤ 0x200a) || c.val = 0x2028 || c.val = 0x2029 ||
  c.val = 0x202f || c.val = 0x205f || c.val = 0x3000 || c.val = 0xfeff

/-- Consume an exact literal from the front of `s`, returning the remainder. -/
def chopLit : List Char → List Char → Option (List Char)
  | [], s => some s
  | _ :: _, [] => none
  | l :: ls, c :: cs => if c = l then chopLit ls cs else none

/-- Attempt the regex body `brew install\s+(--cask\s+)?(\S+)` at the start of
`s`. Returns `(caskFlagText, packageName)` — the flag capture includes the
whitespace its `\s+` consumed, exactly as `brewMatch[1]` does. Since `\s` and
`\S` are disjoint and `--cask` must be followed by whitespace, the only
backtracking the regex engine can do is to drop the optional group when no
`\S+` remains after it. -/
def matchBrewAt (s : List Char) : Option (List Char × List Char) :=
  match chopLit ("brew install".toList) s with
  | none => none
  | some rest =>
      let ws1 := rest.takeWhile jsWS
      let rest1 := rest.dropWhile jsWS
      if ws1.isEmpty then none
      else
        let cand : Option (List Char × List Char) :=
          match chopLit ("--cask".toList) rest1 with
          | some rest2 =>
              let ws2 := rest2.takeWhile jsWS
              let rest3 := rest2.dropWhile jsWS
              if ws2.isEmpty then none
              else
                let pkg := rest3.takeWhile (fun c => !jsWS c)
                if pkg.isEmpty then none
                else some ("--cask".toList ++ ws2, pkg)
          | none => none
        match cand with
        | some r => some r
        | none =>
            let pkg := rest1.takeWhile (fun c => !jsWS c)
            if pkg.isEmpty then none else some ([], pkg)

/-- Unanchored search, as `String.prototype.match` performs: try the pattern
at each position, left to right, first success wins. -/
def findBrewMatch : List Char → Option (List Char × List Char)
  | [] => none
  | c :: rest =>
      match matchBrewAt (c :: rest) with
      | some r => some r
      | none => findBrewMatch rest

/-- `` `brew ${verb} ${caskFlag}${pkgName}` `` for `verb` ∈
{uninstall, upgrade}, or `null` when the install command does not contain the
brew pattern. -/
def deriveBrewCmd (verb : String) (installCmd : String) : Option String :=
  (findBrewMatch installCmd.toList).map
    (fun r => String.mk (("brew " ++ verb ++ " ").toList ++ r.1 ++ r.2))

/-- JS `x || d` on an optional string (empty string is falsy). -/
def jsOr (o : Option String) (d : String) : String :=
  match o with
  | some s => if s = "" then d else s
  | none => d

/-- `doUninstallTool(toolId)` (renderer.js lines 659-704): derive the
uninstall command from the install command; if none is derivable, show the
error and return — no terminal clearing, no spawn. Otherwise stream it and
handle success/failure (there is no cancelled branch in this function). -/
def doUninstallTool (cfg : List Item) (o : ShellOracle) (ts : StateMap)
    (toolId : String) : StateMap × List Effect :=
  match cfg.find? (fun t => t.id = toolId) with
  | none => (ts, [])
  | some tool =>
      match deriveBrewCmd "uninstall" tool.install with
      | none =>
          (ts, [.warn ("Cannot uninstall " ++ tool.name ++
            ": no uninstall command available")])
      | some cmd =>
          let terminalId := "tool-" ++ toolId
          let ts1 := setState ts toolId { getOrInit ts toolId with installing := true }
          let result := o.runS cmd terminalId
          let ts2 := setState ts1 toolId
            { getOrInit ts1 toolId with installing := false }
          let preEffects : List Effect :=
            [.clearTerminal terminalId, .terminalActive terminalId true,
             .statusMsg ("Uninstalling " ++ tool.name ++ "..."),
             .spawnStreaming cmd terminalId, .terminalActive terminalId false]
          if result.succeeded then
            (checkToolM o ts2 tool,
             preEffects ++ [.recheck toolId, .activity "uninstalled" tool.name none])
          else
            (ts2, preEffects ++
              [.warn ("Failed to uninstall " ++ tool.name),
               .activity "failed" ("uninstall " ++ tool.name) none])

/-- `upgradeTool(toolId)` (renderer.js lines 706-754): same derivation with
the `upgrade` verb; on success the logged version is
`toolStates[toolId]?.version || toVersion`. -/
def upgradeTool (cfg : List Item) (o : ShellOracle) (ts : StateMap)
    (toolId : String) : StateMap × List Effect :=
  match cfg.find? (fun t => t.id = toolId) with
  | none => (ts, [])
  | some tool =>
      match deriveBrewCmd "upgrade" tool.install with
      | none =>
          (ts, [.warn ("Cannot upgrade " ++ tool.name ++
            ": no upgrade command available")])
      | some cmd =>
          let terminalId := "tool-" ++ toolId
          let fromV := jsOr ((lookupState ts toolId).bind (·.version)) "current"
          let toV := jsOr ((lookupState ts toolId).bind (·.latestVersion)) "latest"
          let ts1 := setState ts toolId { getOrInit ts toolId with installing := true }
          let result := o.runS cmd terminalId
          let ts2 := setState ts1 toolId
            { getOrInit ts1 toolId with installing := false }
          let preEffects : List Effect :=
            [.clearTerminal terminalId, .terminalActive terminalId true,
             .statusMsg ("Upgrading " ++ tool.name ++ " from v" ++ fromV ++
               " to v" ++ toV ++ "..."),
             .spawnStreaming cmd terminalId, .terminalActive terminalId false]
          if result.succeeded then
            let ts3 := checkToolM o ts2 tool
            let newV := jsOr ((lookupState ts3 toolId).bind (·.version)) toV
            (ts3, preEffects ++
              [.recheck toolId, .activity "upgraded" tool.name (some newV)])
          else
            (ts2, preEffects ++
              [.warn ("Failed to upgrade " ++ tool.name),
               .activity "failed" ("upgrade " ++ tool.name) none])

/-! ## Config validation and loading
(skill.md-appended main.js: `validateConfig` lines 360-385,
`config:loadFile` lines 514-523, `config:loadURL` lines 525-538,
`config:loadBundled` lines 540-552; renderer.js `loadConfig` lines 50-112) -/

/-- A YAML document as `yaml.load` returns it, after parsing: either not an
object (string/number/null — rejected by
`!config || typeof config !== 'object'`), or an object whose relevant keys
are modelled here. A falsy/missing `name` is the empty string; a missing or
non-array `dependencies`/`apps` is `none`. Entries reuse `Item`, whose
missing/empty string fields are `""` (JS falsiness conflates the two, and so
does every check in `validateConfig`). -/
inductive ConfigDoc where
  | notObject
  | obj (name : String) (dependencies : Option (List Item))
      (apps : Option (List Item))
  deriving Repr, DecidableEq

/-- The errors `validateConfig` throws, structured; `itemError` keeps the
section, the entry index, the entry's id and the missing field. -/
inductive ConfigError where
  | notObject
  | missingName
  | missingDependencies
  | missingApps
  | itemError (sect : String) (index : Nat) (itemId : String) (field : String)
  deriving Repr, DecidableEq

/-- The exact message strings of `validateConfig` (main.js lines 361-379). -/
def errorMessage : ConfigError → String
  | .notObject => "Invalid config: not an object"
  | .missingName => "Config missing \"name\""
  | .missingDependencies => "Config missing \"dependencies\" array"
  | .missingApps => "Config missing \"apps\" array"
  | .itemError sect index itemId field =>
      if field = "id" then
        "Item " ++ toString index ++ " in " ++ sect ++ " missing \"id\""
      else
        "Item \"" ++ itemId ++ "\" missing \"" ++ field ++ "\""

/-- Field projection by name, for stating which field an error names. -/
def fieldOf (it : Item) (f : String) : String :=
  if f = "id" then it.id
  else if f = "name" then it.name
  else if f = "check" then it.check
  else if f = "install" then it.install
  else ""

/-- `validateItem` (main.js lines 374-379): first falsy field throws. -/
def validateItem (sect : String) (idx : Nat) (it : Item) : Option ConfigError :=
  if it.id = "" then some (.itemError sect idx it.id "id")
  else if it.name = "" then some (.itemError sect idx it.id "name")
  else if it.check = "" then some (.itemError sect idx it.id "check")
  else if it.install = "" then some (.itemError sect idx it.id "install")
  else none

/-- `config.<section>.forEach((d, i) => validateItem(d, section, i))`:
first throwing entry wins. -/
def validateItems (sect : String) (idx : Nat) : List Item → Option ConfigError
  | [] => none
  | it :: rest =>
      match validateItem sect idx it with
      | some e => some e
      | none => validateItems sect (idx + 1) rest

/-- All four fields of an entry are non-empty. -/
def validFields (it : Item) : Prop :=
  it.id ≠ "" ∧ it.name ≠ "" ∧ it.check ≠ "" ∧ it.install ≠ ""

instance (it : Item) : Decidable (validFields it) := by
  unfold validFields
  infer_instance

/-- `validateConfig(config)` (main.js lines 360-385): object check, `name`,
`dependencies` array, `apps` array, then per-entry checks — the first failing
check throws and the document is returned unchanged when all pass. -/
def validateConfig : ConfigDoc → Except ConfigError ConfigDoc
  | .notObject => .error .notObject
  | .obj name deps apps =>
      if name = "" then .error .missingName
      else
        match deps with
        | none => .error .missingDependencies
        | some ds =>
            match apps with
            | none => .error .missingApps
            | some as' =>
                match validateItems "dependencies" 0 ds with
                | some e => .error e
                | none =>
                    match validateItems "apps" 0 as' with
                    | some e => .error e
                    | none => .ok (.obj name deps apps)

/-- Result of an IPC config load as the renderer sees it: the document, or an
`{ error }` object. The file read / HTTP fetch and the YAML parse are
abstracted to the parsed document (their own failures also produce
`{ error }` and are out of scope for the claims). -/
inductive LoadOutcome where
  | ok (d : ConfigDoc)
  | err (e : ConfigError)
  deriving Repr, DecidableEq

/-- `config:loadFile` / `config:loadURL` (main.js lines 514-538): parse, then
`return validateConfig(config)`, converting a thrown error into `{ error }`. -/
def loadFileIpc (doc : ConfigDoc) : LoadOutcome :=
  match validateConfig doc with
  | .ok c => .ok c
  | .error e => .err e

/-- `config:loadBundled` (main.js lines 540-552): read and parse the bundled
file and `return yaml.load(content)` directly — `// Bundled config assumed
valid`, no `validateConfig` call. -/
def loadBundledIpc (doc : ConfigDoc) : LoadOutcome := .ok doc

/-- Fresh per-item states registered by renderer `loadConfig`
(lines 89-94): every listed item becomes `{ status: 'unchecked',
installed: false }`. -/
def initStates (items : List Item) : StateMap :=
  items.foldl (fun m d => setState m d.id { status := .unchecked }) []

/-- The renderer state `loadConfig` owns. -/
structure RendererConfigState where
  currentConfig : Option ConfigDoc
  toolStates : StateMap
  appStates : StateMap
  deriving DecidableEq

/-- Renderer `loadConfig` (lines 50-112) after the IPC result arrives: on
`result.error` show the error and return `false` leaving all state untouched;
otherwise replace the config and register fresh item states. -/
def loadConfigModel (outcome : LoadOutcome) (old : RendererConfigState) :
    RendererConfigState × Bool :=
  match outcome with
  | .err _ => (old, false)
  | .ok d =>
      match d with
      | .notObject => ({ currentConfig := some d, toolStates := [], appStates := [] }, true)
      | .obj _ deps apps =>
          ({ currentConfig := some d,
             toolStates := initStates (deps.getD []),
             appStates := initStates (apps.getD []) }, true)

/-! ## checkAllTools (renderer.js lines 582-603) -/

/-- `enrichAppVersion(app)` (lines 530-539): like the tool variant but only
the `version` field is merged. -/
def enrichAppM (o : ShellOracle) (as' : StateMap) (a : Item) : StateMap :=
  if getInstalled as' a.id then
    setState as' a.id { getOrInit as' a.id with version := (o.enrich a).1 }
  else as'

/-- The per-store pipeline of `checkAllTools`: reset every item of the list
to `{ status: 'checking', installed: false }`, run the fast checks
(`checkAppFast` performs the identical update to `checkToolFast`), then fire
the enrichment pass. The tool and app stores are disjoint structures touched
only by their own item list, so `checkAllTools` is this pipeline applied to
each store; the concurrent per-item checks commute because each writes only
its own key, so their sequentialisation is faithful. -/
def checkPipeline (o : ShellOracle) (l : List Item)
    (enr : StateMap → Item → StateMap) (ts : StateMap) : StateMap :=
  let ts0 := l.foldl
    (fun m t => setState m t.id { status := .checking, installed := false }) ts
  let ts1 := l.foldl (checkToolFastM o) ts0
  l.foldl enr ts1

/-- `checkAllTools()` over both stores. -/
def checkAllToolsM (o : ShellOracle) (deps apps : List Item)
    (ts as' : StateMap) : StateMap × StateMap :=
  (checkPipeline o deps (enrichToolM o) ts,
   checkPipeline o apps (enrichAppM o) as')

/-- The installed/missing status the claim compares: status and installed
flag of an item's state. -/
def projSI (ts : StateMap) (id : String) : Option (Status × Bool) :=
  (lookupState ts id).map (fun s => (s.status, s.installed))

/-- The check command of the last item in `l` carrying a given id — the one
whose write wins in the fast-check pass. -/
def lastCheck : List Item → String → Option String
  | [], _ => none
  | t :: rest, id =>
      match lastCheck rest id with
      | some c => some c
      | none => if t.id = id then some t.check else none

/-- A fully valid config document. -/
def goodDoc : ConfigDoc := ConfigDoc.obj "Dev Setup" (some [itemA, itemB]) (some [])

/-- A document missing `name`, `dependencies` and `apps` alike. -/
def badDoc : ConfigDoc := ConfigDoc.obj "" none none

/-- A document whose first dependency entry has an empty `check`. -/
def badItemDoc : ConfigDoc :=
  ConfigDoc.obj "X"
    (some [{ id := "a", name := "A", check := "", install := "brew install a" }])
    (some [])

/-- A pre-existing renderer state, to observe that failed loads leave it
untouched. -/
def oldRendererState : RendererConfigState :=
  { currentConfig := some goodDoc,
    toolStates := [("a", { status := .checked, installed := true })],
    appStates := [] }

/-! ## Helper lemmas -/

/-! ## Map lemmas -/

theorem lookupState_setState_self (ts : StateMap) (id : String) (st : ItemState) :
    lookupState (setState ts id st) id = some st := by
  induction ts with
  | nil => simp [setState, lookupState]
  | cons p rest ih =>
      obtain ⟨k, v⟩ := p
      by_cases h : k = id
      · simp [setState, h, lookupState]
      · simp [setState, h, lookupState, ih]

theorem getOrInit_setState_self (ts : StateMap) (id : String) (st : ItemState) :
    getOrInit (setState ts id st) id = st := by
  simp [getOrInit, lookupState_setState_self]

theorem getInstalled_eq_getOrInit (ts : StateMap) (id : String) :
    getInstalled ts id = (getOrInit ts id).installed := by
  unfold getInstalled getOrInit
  cases lookupState ts id <;> simp

theorem getInstalled_set_installing (ts : StateMap) (id : String) (b : Bool) :
    getInstalled (setState ts id { getOrInit ts id with installing := b }) id =
      getInstalled ts id := by
  rw [getInstalled_eq_getOrInit, getOrInit_setState_self,
    getInstalled_eq_getOrInit]

theorem regLookup_regSet_self (r : List (String × ProcInfo)) (id : String)
    (v : ProcInfo) : regLookup (regSet r id v) id = some v := by
  induction r with
  | nil => simp [regSet, regLookup]
  | cons p rest ih =>
      obtain ⟨k, w⟩ := p
      by_cases h : k = id
      · simp [regSet, h, regLookup]
      · simp [regSet, h, regLookup, ih]

theorem mem_keys_regSet {r : List (String × ProcInfo)} {id x : String}
    {v : ProcInfo} (hx : x ∈ (regSet r id v).map Prod.fst) :
    x ∈ r.map Prod.fst ∨ x = id := by
  induction r with
  | nil => simpa [regSet] using hx
  | cons p rest ih =>
      obtain ⟨k, w⟩ := p
      by_cases h : k = id
      · subst h
        rw [show regSet ((k, w) :: rest) k v = (k, v) :: rest from by
          simp [regSet]] at hx
        simp only [List.map_cons, List.mem_cons] at hx ⊢
        tauto
      · simp only [regSet, if_neg h, List.map_cons, List.mem_cons] at hx ⊢
        rcases hx with hx | hx
        · exact Or.inl (Or.inl hx)
        · rcases ih hx with h' | h'
          · exact Or.inl (Or.inr h')
          · exact Or.inr h'

theorem nodup_keys_regSet {r : List (String × ProcInfo)} (id : String)
    (v : ProcInfo) (h : (r.map Prod.fst).Nodup) :
    ((regSet r id v).map Prod.fst).Nodup := by
  induction r with
  | nil => simp [regSet]
  | cons p rest ih =>
      obtain ⟨k, w⟩ := p
      simp only [List.map_cons, List.nodup_cons] at h
      by_cases hk : k = id
      · subst hk
        simpa [regSet, List.nodup_cons] using h
      · simp only [regSet, if_neg hk, List.map_cons, List.nodup_cons]
        refine ⟨fun hmem => ?_, ih h.2⟩
        rcases mem_keys_regSet hmem with h' | h'
        · exact h.1 h'
        · exact hk h'

theorem regDelete_sublist (r : List (String × ProcInfo)) (id : String) :
    (regDelete r id).Sublist r := by
  induction r with
  | nil => simp [regDelete]
  | cons p rest ih =>
      obtain ⟨k, w⟩ := p
      by_cases h : k = id
      · simp only [regDelete, if_pos h]
        exact List.sublist_cons_self (k, w) rest
      · simpa [regDelete, h] using ih.cons₂ (k, w)

theorem nodup_keys_regDelete {r : List (String × ProcInfo)} (id : String)
    (h : (r.map Prod.fst).Nodup) : ((regDelete r id).map Prod.fst).Nodup :=
  ((regDelete_sublist r id).map Prod.fst).nodup h

theorem nodup_keys_stepShell {w : ShellWorld}
    (h : (w.registry.map Prod.fst).Nodup) (e : ShellEvent) :
    (((stepShell w e).registry).map Prod.fst).Nodup := by
  cases e with
  | start id p => exact nodup_keys_regSet id _ h
  | cancel id =>
      simp only [stepShell]
      cases hr : regLookup w.registry id with
      | none => simpa [hr] using h
      | some pi => simpa [hr] using nodup_keys_regSet id _ h
  | close id p => exact nodup_keys_regDelete id h

theorem nodup_keys_runTrace (evs : List ShellEvent) :
    ∀ w : ShellWorld, (w.registry.map Prod.fst).Nodup →
      (((runTrace w evs).registry).map Prod.fst).Nodup := by
  induction evs with
  | nil => intro w h; exact h
  | cons e rest ih =>
      intro w h
      exact ih (stepShell w e) (nodup_keys_stepShell h e)

theorem takeLast_length_le (n : Nat) (l : List α) : (takeLast n l).length ≤ n := by
  simp only [takeLast, List.length_drop]
  omega

theorem takeLast_of_length_le {n : Nat} {l : List α} (h : l.length ≤ n) :
    takeLast n l = l := by
  simp only [takeLast, Nat.sub_eq_zero_of_le h, List.drop_zero]

theorem takeLast_takeLast_append (n : Nat) (xs ys : List α) :
    takeLast n (takeLast n xs ++ ys) = takeLast n (xs ++ ys) := by
  rcases le_or_lt xs.length n with h | h
  · rw [takeLast_of_length_le h]
  · simp only [takeLast, List.length_append, List.length_drop,
      List.drop_append_eq_append_drop, List.drop_drop]
    congr 1
    · congr 1
      omega
    · congr 1
      omega

theorem pushLine_eq_takeLast {buf : List TermLine} (l : TermLine)
    (h : buf.length ≤ MAX_TERMINAL_LINES) :
    pushLine buf l = takeLast MAX_TERMINAL_LINES (buf ++ [l]) := by
  simp only [pushLine]
  rcases Nat.lt_or_ge buf.length MAX_TERMINAL_LINES with hlt | hge
  · rw [if_neg (by simp; omega), takeLast_of_length_le (by simp; omega)]
  · have hbuf : buf.length = MAX_TERMINAL_LINES := le_antisymm h hge
    rw [if_pos (by simp; omega)]
    have hdrop : (buf ++ [l]).length - MAX_TERMINAL_LINES = 1 := by
      simp [hbuf]
    rw [takeLast, hdrop, List.drop_one]

theorem foldl_pushLine_eq (ls : List TermLine) :
    ∀ buf : List TermLine, buf.length ≤ MAX_TERMINAL_LINES →
      ls.foldl pushLine buf = takeLast MAX_TERMINAL_LINES (buf ++ ls) := by
  induction ls with
  | nil => intro buf h; simpa using (takeLast_of_length_le h).symm
  | cons l ls ih =>
      intro buf h
      have hpush := pushLine_eq_takeLast l h
      have hlen : (pushLine buf l).length ≤ MAX_TERMINAL_LINES := by
        rw [hpush]; exact takeLast_length_le _ _
      calc (l :: ls).foldl pushLine buf
          = ls.foldl pushLine (pushLine buf l) := rfl
        _ = takeLast MAX_TERMINAL_LINES (pushLine buf l ++ ls) := ih _ hlen
        _ = takeLast MAX_TERMINAL_LINES
              (takeLast MAX_TERMINAL_LINES (buf ++ [l]) ++ ls) := by rw [hpush]
        _ = takeLast MAX_TERMINAL_LINES ((buf ++ [l]) ++ ls) :=
              takeLast_takeLast_append _ _ _
        _ = takeLast MAX_TERMINAL_LINES (buf ++ l :: ls) := by
              rw [List.append_assoc]; rfl

theorem appendTerminalOutput_eq {buf : List TermLine} (data stream : String)
    (h : buf.length ≤ MAX_TERMINAL_LINES) :
    appendTerminalOutput buf data stream =
      takeLast MAX_TERMINAL_LINES (buf ++ linesOf data stream) :=
  foldl_pushLine_eq _ _ h

theorem terminalAfter_aux (chunks : List (String × String)) :
    ∀ buf : List TermLine, buf.length ≤ MAX_TERMINAL_LINES →
      chunks.foldl (fun b c => appendTerminalOutput b c.1 c.2) buf =
        takeLast MAX_TERMINAL_LINES (buf ++ allStreamedLines chunks) := by
  induction chunks with
  | nil =>
      intro buf h
      simpa [allStreamedLines] using (takeLast_of_length_le h).symm
  | cons c cs ih =>
      intro buf h
      have happ := appendTerminalOutput_eq c.1 c.2 h
      have hlen : (appendTerminalOutput buf c.1 c.2).length ≤ MAX_TERMINAL_LINES := by
        rw [happ]; exact takeLast_length_le _ _
      calc ((c :: cs).foldl (fun b c => appendTerminalOutput b c.1 c.2) buf)
          = cs.foldl (fun b c => appendTerminalOutput b c.1 c.2)
              (appendTerminalOutput buf c.1 c.2) := rfl
        _ = takeLast MAX_TERMINAL_LINES
              (appendTerminalOutput buf c.1 c.2 ++ allStreamedLines cs) := ih _ hlen
        _ = takeLast MAX_TERMINAL_LINES
              (takeLast MAX_TERMINAL_LINES (buf ++ linesOf c.1 c.2)
                ++ allStreamedLines cs) := by rw [happ]
        _ = takeLast MAX_TERMINAL_LINES
              ((buf ++ linesOf c.1 c.2) ++ allStreamedLines cs) :=
              takeLast_takeLast_append _ _ _
        _ = takeLast MAX_TERMINAL_LINES (buf ++ allStreamedLines (c :: cs)) := by
              rw [List.append_assoc]
              simp [allStreamedLines]

/-! ## Lemmas on the brew-pattern matcher -/

theorem chopLit_append (lit rest : List Char) : chopLit lit (lit ++ rest) = some rest := by
  induction lit with
  | nil => rfl
  | cons c cs ih => simp [chopLit, ih]

theorem chopLit_some_eq {lit s r : List Char} (h : chopLit lit s = some r) :
    s = lit ++ r := by
  induction lit generalizing s with
  | nil =>
      simp only [chopLit, Option.some.injEq] at h
      simpa using h
  | cons c cs ih =>
      cases s with
      | nil => simp [chopLit] at h
      | cons x xs =>
          simp only [chopLit] at h
          by_cases hx : x = c
          · rw [if_pos hx] at h
            subst hx
            simpa using ih h
          · rw [if_neg hx] at h
            simp at h

theorem takeWhile_eq_nil_of_neg {p : Char → Bool} {l : List Char}
    (h : ∀ c ∈ l, p c = false) : l.takeWhile p = [] := by
  cases l with
  | nil => rfl
  | cons c cs =>
      exact List.takeWhile_cons_of_neg (by simp [h c (List.mem_cons_self c cs)])

theorem dropWhile_eq_self_of_neg {p : Char → Bool} {l : List Char}
    (h : ∀ c ∈ l, p c = false) : l.dropWhile p = l := by
  cases l with
  | nil => rfl
  | cons c cs =>
      exact List.dropWhile_cons_of_neg (by simp [h c (List.mem_cons_self c cs)])

theorem takeWhile_eq_self_of_pos {p : Char → Bool} {l : List Char}
    (h : ∀ c ∈ l, p c = true) : l.takeWhile p = l := by
  induction l with
  | nil => rfl
  | cons c cs ih =>
      rw [List.takeWhile_cons_of_pos (h c (List.mem_cons_self c cs))]
      rw [ih (fun x hx => h x (List.mem_cons_of_mem c hx))]

theorem matchBrewAt_cask (pkg : List Char) (hne : pkg ≠ [])
    (hpkg : ∀ c ∈ pkg, jsWS c = false) :
    matchBrewAt ("brew install".toList ++ ' ' :: ("--cask ".toList ++ pkg)) =
      some ("--cask ".toList, pkg) := by
  have hcaskHead : ("--cask ".toList : List Char) = '-' :: "-cask ".toList := by
    decide
  have h2 : List.takeWhile jsWS ("--cask ".toList ++ pkg) = [] := by
    rw [hcaskHead, List.cons_append, List.takeWhile_cons_of_neg (by decide)]
  have h3 : List.dropWhile jsWS ("--cask ".toList ++ pkg) = "--cask ".toList ++ pkg := by
    rw [hcaskHead, List.cons_append, List.dropWhile_cons_of_neg (by decide)]
  have h0a : List.takeWhile jsWS (' ' :: ("--cask ".toList ++ pkg)) = [' '] := by
    rw [List.takeWhile_cons_of_pos (by decide), h2]
  have h0b : List.dropWhile jsWS (' ' :: ("--cask ".toList ++ pkg)) =
      "--cask ".toList ++ pkg := by
    rw [List.dropWhile_cons_of_pos (by decide), h3]
  have h4 : chopLit ("--cask".toList) ("--cask ".toList ++ pkg) =
      some (' ' :: pkg) := by
    rw [show ("--cask ".toList : List Char) = "--cask".toList ++ [' '] from by decide,
      List.append_assoc]
    exact chopLit_append _ _
  have h5 : List.takeWhile jsWS (' ' :: pkg) = [' '] := by
    rw [List.takeWhile_cons_of_pos (by decide), takeWhile_eq_nil_of_neg hpkg]
  have h6 : List.dropWhile jsWS (' ' :: pkg) = pkg := by
    rw [List.dropWhile_cons_of_pos (by decide), dropWhile_eq_self_of_neg hpkg]
  have h7 : List.takeWhile (fun c => !jsWS c) pkg = pkg :=
    takeWhile_eq_self_of_pos (fun c hc => by simp [hpkg c hc])
  have h8 : pkg.isEmpty = false := by
    cases pkg with
    | nil => exact absurd rfl hne
    | cons c cs => rfl
  have h9 : ("--cask".toList : List Char) ++ [' '] = "--cask ".toList := by decide
  simp only [matchBrewAt, chopLit_append, h0a, h0b, h4, h5, h6, h7, h8, h9,
    List.isEmpty_cons, List.isEmpty_nil]
  simp

theorem matchBrewAt_plain (pkg : List Char) (hne : pkg ≠ [])
    (hpkg : ∀ c ∈ pkg, jsWS c = false) :
    matchBrewAt ("brew install".toList ++ ' ' :: pkg) = some ([], pkg) := by
  have h5 : List.takeWhile jsWS (' ' :: pkg) = [' '] := by
    rw [List.takeWhile_cons_of_pos (by decide), takeWhile_eq_nil_of_neg hpkg]
  have h6 : List.dropWhile jsWS (' ' :: pkg) = pkg := by
    rw [List.dropWhile_cons_of_pos (by decide), dropWhile_eq_self_of_neg hpkg]
  have h7 : List.takeWhile (fun c => !jsWS c) pkg = pkg :=
    takeWhile_eq_self_of_pos (fun c hc => by simp [hpkg c hc])
  have h8 : pkg.isEmpty = false := by
    cases pkg with
    | nil => exact absurd rfl hne
    | cons c cs => rfl
  cases hchop : chopLit ("--cask".toList) pkg with
  | none =>
      simp only [matchBrewAt, chopLit_append, h5, h6, h7, h8, hchop,
        List.isEmpty_cons, List.isEmpty_nil]
      simp
  | some rest2 =>
      have hr2 : ∀ c ∈ rest2, jsWS c = false := fun c hc =>
        hpkg c ((chopLit_some_eq hchop) ▸ List.mem_append_right _ hc)
      have hw2 : List.takeWhile jsWS rest2 = [] := takeWhile_eq_nil_of_neg hr2
      simp only [matchBrewAt, chopLit_append, h5, h6, h7, h8, hchop, hw2,
        List.isEmpty_cons, List.isEmpty_nil]
      simp

theorem findBrewMatch_of_matchAt {c : Char} {l : List Char}
    {r : List Char × List Char} (h : matchBrewAt (c :: l) = some r) :
    findBrewMatch (c :: l) = some r := by
  simp [findBrewMatch, h]

/-! ## Claim theorems (C3, C9) -/

/-- C9: for every correlation id, the terminal buffer never holds more than
200 lines: appends add the streamed chunk's non-empty lines at the tail and
evict from the head once the bound is exceeded, so after any sequence of
appends the buffer is exactly the most recent at-most-200 non-empty streamed
lines in arrival order. -/
theorem C9_terminal_buffer_bound (chunks : List (String × String)) :
    terminalAfter chunks =
      takeLast MAX_TERMINAL_LINES (allStreamedLines chunks) ∧
    (terminalAfter chunks).length ≤ MAX_TERMINAL_LINES := by
  have h := terminalAfter_aux chunks [] (by simp [MAX_TERMINAL_LINES])
  constructor
  · simpa [terminalAfter] using h
  · have : terminalAfter chunks =
        takeLast MAX_TERMINAL_LINES (allStreamedLines chunks) := by
      simpa [terminalAfter] using h
    rw [this]; exact takeLast_length_le _ _

/-- C3 counterexample: the claim also asserts that an item whose `dependsOn`
names a nonexistent id is not eligible and that one predicate gates both the
Install affordance and the batch pass; but for an item depending on the absent
id `"ghost"` the affordance gate (`renderAction`) offers the Install button
(treats it as eligible) while the spec predicate and the batch gate do not. -/
theorem C3_counterexample :
    renderActionEligible [] ghostDepItem = true ∧
    isEligibleSpec [] ghostDepItem = false ∧
    batchEligible [] ghostDepItem = false := by
  refine ⟨rfl, rfl, rfl⟩

/-- C3 (amended): the batch-install gate agrees with the spec predicate
(`dependsOn` absent, or the dependency's state store entry has
`installed == true`; a missing entry is not eligible) for every store and item;
the Install-affordance gate agrees with it whenever the dependency actually has
a state store entry, but treats a missing entry as eligible. -/
theorem C3_eligibility (ts : StateMap) (item : Item) :
    batchEligible ts item = isEligibleSpec ts item ∧
    (∀ dep, item.depends_on = some dep → (lookupState ts dep).isSome →
      renderActionEligible ts item = isEligibleSpec ts item) := by
  constructor
  · unfold batchEligible isEligibleSpec getInstalled
    cases item.depends_on with
    | none => rfl
    | some dep =>
        cases h : lookupState ts dep with
        | none => simp [h]
        | some st => simp [h]
  · intro dep hdep hsome
    unfold renderActionEligible isEligibleSpec
    rw [hdep]
    cases h : lookupState ts dep with
    | none => rw [h] at hsome; simp at hsome
    | some st => simp [h]

/-- C3 witness: the amended theorem applied at a concrete store and item whose
dependency `"a"` has an installed state entry. -/
theorem C3_eligibility_witness :
    batchEligible storeWithA depOnAItem = isEligibleSpec storeWithA depOnAItem ∧
    renderActionEligible storeWithA depOnAItem = isEligibleSpec storeWithA depOnAItem :=
  ⟨(C3_eligibility storeWithA depOnAItem).1,
    (C3_eligibility storeWithA depOnAItem).2 "a" rfl (by decide)⟩

/-! ## C1: install has no eligibility gate -/

/-- C1 counterexample: `itemB` is ineligible (its dependency `a` is checked
and not installed), yet `installTool("b")` clears the terminal, streams the
install command — spawning a process — and emits no warning: the effect trace
is exactly the unconditional install trace. -/
theorem C1_counterexample :
    isEligibleSpec notInstalledStore itemB = false ∧
    (installTool cfgAB plainOracle notInstalledStore "b").2 =
      [Effect.clearTerminal "tool-b", Effect.terminalActive "tool-b" true,
       Effect.statusMsg "Installing B...",
       Effect.spawnStreaming "brew install b" "tool-b",
       Effect.terminalActive "tool-b" false, Effect.recheck "b",
       Effect.activity "installed" "B" none] := by
  constructor
  · rfl
  · rfl

/-- C1 (amended): `installTool` performs no eligibility check at all: for
every item found in the config — eligible or not — it clears the item's
terminal buffer, activates it, and spawns the streaming install command
(the `Installing` mark is set just before the spawn); the eligibility
predicate gates only the rendered Install affordance and the batch pass. -/
theorem C1_install_unconditional (cfg : List Item) (o : ShellOracle)
    (ts : StateMap) (toolId : String) (tool : Item)
    (hfind : cfg.find? (fun t => t.id = toolId) = some tool) :
    ((installTool cfg o ts toolId).2).take 4 =
      [Effect.clearTerminal ("tool-" ++ toolId),
       Effect.terminalActive ("tool-" ++ toolId) true,
       Effect.statusMsg ("Installing " ++ tool.name ++ "..."),
       Effect.spawnStreaming tool.install ("tool-" ++ toolId)] := by
  simp only [installTool, hfind]
  by_cases hc : (o.runS tool.install ("tool-" ++ toolId)).cancelled
  · simp [hc]
  · by_cases hs : (o.runS tool.install ("tool-" ++ toolId)).succeeded
    · simp [hc, hs]
    · simp [hc, hs]

/-- C1 witness: the amended theorem applied to the ineligible `itemB`. -/
theorem C1_install_unconditional_witness :
    cfgAB.find? (fun t => t.id = "b") = some itemB ∧
    ((installTool cfgAB plainOracle notInstalledStore "b").2).take 4 =
      [Effect.clearTerminal ("tool-" ++ "b"),
       Effect.terminalActive ("tool-" ++ "b") true,
       Effect.statusMsg ("Installing " ++ itemB.name ++ "..."),
       Effect.spawnStreaming itemB.install ("tool-" ++ "b")] :=
  ⟨by decide,
    C1_install_unconditional cfgAB plainOracle notInstalledStore "b" itemB
      (by decide)⟩

/-! ## C2: live-process registry -/

/-- C2 counterexample: two streaming starts under the same correlation id
`"a"`. After the second `set`, process 1 is still live, was never signalled,
and the registry's only handle for `"a"` is process 2: the prior live process
was silently replaced, neither resolved nor cancelled first. -/
theorem C2_counterexample :
    (1 : Nat) ∈ (runTrace initialWorld
      [ShellEvent.start "a" 1, ShellEvent.start "a" 2]).live ∧
    (1 : Nat) ∉ (runTrace initialWorld
      [ShellEvent.start "a" 1, ShellEvent.start "a" 2]).signalled ∧
    regLookup (runTrace initialWorld
      [ShellEvent.start "a" 1, ShellEvent.start "a" 2]).registry "a" =
      some { proc := 2, cancelled := false } := by
  refine ⟨by decide, by decide, by decide⟩

/-- C2 (amended): the `activeProcesses` Map does keep at most one registered
entry per correlation id (its keys stay distinct along every event trace),
but a new streaming start under an id silently overwrites the prior handle:
the entry becomes the fresh process with `cancelled := false`, the prior
process stays live, and nothing is signalled or resolved first. -/
theorem C2_registry_overwrite (evs : List ShellEvent) (w : ShellWorld)
    (id : String) (p : Nat) :
    (((runTrace initialWorld evs).registry).map Prod.fst).Nodup ∧
    regLookup (stepShell w (.start id p)).registry id =
      some { proc := p, cancelled := false } ∧
    (stepShell w (.start id p)).live = p :: w.live ∧
    (stepShell w (.start id p)).signalled = w.signalled := by
  refine ⟨nodup_keys_runTrace evs initialWorld (by simp [initialWorld]),
    ?_, rfl, rfl⟩
  simp only [stepShell]
  exact regLookup_regSet_self _ _ _

/-! ## C4: cancellation semantics -/

/-- C4: cancelling a streaming install. Main-process side: after
`shell:cancelProcess` flags a registered process, the `'close'` handler
resolves with `cancelled = true`. Renderer side: on a cancelled result,
`installTool` leaves the item's `installed` flag exactly as it was before the
attempt, logs nothing to the activity log (in particular no failure), and
performs no re-check — its full effect trace is the cancel trace. -/
theorem C4_cancel_semantics (cfg : List Item) (o : ShellOracle) (ts : StateMap)
    (toolId : String) (tool : Item) (w : ShellWorld) (pi : ProcInfo)
    (hfind : cfg.find? (fun t => t.id = toolId) = some tool)
    (hcancelled : (o.runS tool.install ("tool-" ++ toolId)).cancelled = true)
    (hreg : regLookup w.registry ("tool-" ++ toolId) = some pi) :
    closeResultCancelled (stepShell w (.cancel ("tool-" ++ toolId)))
      ("tool-" ++ toolId) = true ∧
    getInstalled (installTool cfg o ts toolId).1 toolId = getInstalled ts toolId ∧
    (installTool cfg o ts toolId).2 =
      [Effect.clearTerminal ("tool-" ++ toolId),
       Effect.terminalActive ("tool-" ++ toolId) true,
       Effect.statusMsg ("Installing " ++ tool.name ++ "..."),
       Effect.spawnStreaming tool.install ("tool-" ++ toolId),
       Effect.terminalActive ("tool-" ++ toolId) false,
       Effect.statusMsg "Installation cancelled"] ∧
    (∀ a n v, Effect.activity a n v ∉ (installTool cfg o ts toolId).2) ∧
    (∀ i, Effect.recheck i ∉ (installTool cfg o ts toolId).2) := by
  have hred : installTool cfg o ts toolId =
      (setState (setState ts toolId { getOrInit ts toolId with installing := true })
        toolId
        { getOrInit (setState ts toolId
            { getOrInit ts toolId with installing := true }) toolId with
            installing := false },
       [Effect.clearTerminal ("tool-" ++ toolId),
        Effect.terminalActive ("tool-" ++ toolId) true,
        Effect.statusMsg ("Installing " ++ tool.name ++ "..."),
        Effect.spawnStreaming tool.install ("tool-" ++ toolId),
        Effect.terminalActive ("tool-" ++ toolId) false,
        Effect.statusMsg "Installation cancelled"]) := by
    simp only [installTool, hfind, hcancelled, if_true]
    rfl
  refine ⟨?_, ?_, ?_, ?_, ?_⟩
  · simp only [stepShell, hreg]
    unfold closeResultCancelled
    rw [regLookup_regSet_self]
    rfl
  · rw [hred]
    rw [getInstalled_set_installing, getInstalled_set_installing]
  · rw [hred]
  · intro a n v
    rw [hred]
    simp
  · intro i
    rw [hred]
    simp

/-- C4 witness: the theorem applied at `itemB` with an oracle whose streaming
run reports cancellation and a world where `"tool-b"` has a live process. -/
theorem C4_cancel_semantics_witness :
    cfgAB.find? (fun t => t.id = "b") = some itemB ∧
    (cancelOracle.runS itemB.install ("tool-" ++ "b")).cancelled = true ∧
    regLookup oneProcWorld.registry ("tool-" ++ "b") =
      some { proc := 1, cancelled := false } ∧
    closeResultCancelled (stepShell oneProcWorld (.cancel ("tool-" ++ "b")))
      ("tool-" ++ "b") = true ∧
    getInstalled (installTool cfgAB cancelOracle notInstalledStore "b").1 "b" =
      getInstalled notInstalledStore "b" :=
  ⟨by decide, by decide, by decide,
    (C4_cancel_semantics cfgAB cancelOracle notInstalledStore "b" itemB
      oneProcWorld { proc := 1, cancelled := false }
      (by decide) (by decide) (by decide)).1,
    (C4_cancel_semantics cfgAB cancelOracle notInstalledStore "b" itemB
      oneProcWorld { proc := 1, cancelled := false }
      (by decide) (by decide) (by decide)).2.1⟩

/-! ## C5: batch install respects dependencies -/

theorem installAllDeps_aux (cfg : List Item) (o : ShellOracle) (l : List Item) :
    ∀ acc : StateMap × List (Item × StateMap),
      (∀ p ∈ acc.2, getInstalled p.2 p.1.id = false ∧
        batchEligible p.2 p.1 = true) →
      ∀ p ∈ (l.foldl (installAllStep cfg o) acc).2,
        getInstalled p.2 p.1.id = false ∧ batchEligible p.2 p.1 = true := by
  induction l with
  | nil => exact fun acc h => h
  | cons tool rest ih =>
      intro acc hacc
      simp only [List.foldl_cons]
      apply ih
      intro p hp
      unfold installAllStep at hp
      by_cases h1 : getInstalled acc.1 tool.id
      · rw [if_pos h1] at hp
        exact hacc p hp
      · rw [if_neg h1] at hp
        by_cases h2 : batchEligible acc.1 tool = true
        · rw [if_pos h2] at hp
          simp only [List.mem_append, List.mem_singleton] at hp
          rcases hp with hp | hp
          · exact hacc p hp
          · subst hp
            exact ⟨by simpa using h1, h2⟩
        · rw [if_neg h2] at hp
          exact hacc p hp

/-- C5: in a batch install pass, every attempted item is, at the moment of
its attempt, not yet installed and has its declared `depends_on` target
recorded as installed in the state store; and since each `installTool` call
is awaited (the fold threads the state of the completed call into the next
iteration), an item's dependency installed earlier in the same pass is
confirmed before its dependents are attempted. Items whose dependency is not
installed are skipped, never attempted. Holds for every config — in
particular every acyclic one. -/
theorem C5_batch_respects_deps (cfg : List Item) (o : ShellOracle)
    (ts : StateMap) (p : Item × StateMap)
    (hp : p ∈ (installAllDeps cfg o ts).2) :
    getInstalled p.2 p.1.id = false ∧
    (∀ dep, p.1.depends_on = some dep → getInstalled p.2 dep = true) := by
  have h := installAllDeps_aux cfg o cfg (ts, []) (by simp) p hp
  refine ⟨h.1, fun dep hdep => ?_⟩
  have h2 := h.2
  unfold batchEligible at h2
  rw [hdep] at h2
  exact h2

/-- C5 witness: the first attempt of a batch pass over `cfgAB` from the empty
store is `itemA` at the empty store, which is indeed not yet installed. -/
theorem C5_batch_respects_deps_witness :
    ((itemA, ([] : StateMap)) ∈ (installAllDeps cfgAB plainOracle []).2) ∧
    getInstalled ([] : StateMap) itemA.id = false :=
  ⟨by decide,
    (C5_batch_respects_deps cfgAB plainOracle [] (itemA, []) (by decide)).1⟩

/-! ## C6: uninstall/upgrade derivation -/

/-- C6: for every install command of the recognized package-manager shape
`brew install [--cask] <package>` (package non-empty and whitespace-free),
the derived uninstall/upgrade command is the same invocation with the verb
replaced and the `--cask` flag and package name preserved; when derivation
succeeds the operation streams exactly the derived command; and when the
pattern is not found the operation emits only the "no … command available"
error — in particular it spawns no process. -/
theorem C6_derive_commands :
    (∀ (verb : String) (cask : Bool) (pkg : List Char), pkg ≠ [] →
      (∀ c ∈ pkg, jsWS c = false) →
      deriveBrewCmd verb
          ("brew install " ++ (if cask then "--cask " else "") ++ String.mk pkg) =
        some ("brew " ++ verb ++ " " ++ (if cask then "--cask " else "") ++
          String.mk pkg)) ∧
    (∀ cfg o ts toolId tool cmd,
      cfg.find? (fun t => t.id = toolId) = some tool →
      deriveBrewCmd "uninstall" tool.install = some cmd →
      Effect.spawnStreaming cmd ("tool-" ++ toolId) ∈
        (doUninstallTool cfg o ts toolId).2) ∧
    (∀ cfg o ts toolId tool cmd,
      cfg.find? (fun t => t.id = toolId) = some tool →
      deriveBrewCmd "upgrade" tool.install = some cmd →
      Effect.spawnStreaming cmd ("tool-" ++ toolId) ∈
        (upgradeTool cfg o ts toolId).2) ∧
    (∀ cfg o ts toolId tool,
      cfg.find? (fun t => t.id = toolId) = some tool →
      findBrewMatch tool.install.toList = none →
      (doUninstallTool cfg o ts toolId).2 =
        [Effect.warn ("Cannot uninstall " ++ tool.name ++
          ": no uninstall command available")] ∧
      (upgradeTool cfg o ts toolId).2 =
        [Effect.warn ("Cannot upgrade " ++ tool.name ++
          ": no upgrade command available")]) := by
  refine ⟨?_, ?_, ?_, ?_⟩
  · intro verb cask pkg hne hpkg
    cases cask with
    | true =>
        have hdata :
            ("brew install " ++ "--cask " ++ String.mk pkg).toList =
              "brew install".toList ++ ' ' :: ("--cask ".toList ++ pkg) := by
          show ("brew install " ++ "--cask " ++ String.mk pkg).data = _
          rw [String.data_append, String.data_append]
          rw [show ("brew install ".data : List Char) =
            "brew install".data ++ [' '] from by decide]
          simp [String.toList]
        have hm := matchBrewAt_cask pkg hne hpkg
        have hfind : findBrewMatch
            (("brew install " ++ "--cask " ++ String.mk pkg).toList) =
              some ("--cask ".toList, pkg) := by
          rw [hdata]
          rw [show ("brew install".toList : List Char) =
            'b' :: "rew install".toList from by decide] at hm ⊢
          rw [List.cons_append] at hm ⊢
          exact findBrewMatch_of_matchAt hm
        simp only [if_true, deriveBrewCmd, hfind, Option.map_some']
        apply congrArg some
        apply String.ext
        simp [String.toList, String.data_append, List.append_assoc]
    | false =>
        have hdata :
            ("brew install " ++ "" ++ String.mk pkg).toList =
              "brew install".toList ++ ' ' :: pkg := by
          show ("brew install " ++ "" ++ String.mk pkg).data = _
          rw [String.data_append, String.data_append]
          rw [show ("brew install ".data : List Char) =
            "brew install".data ++ [' '] from by decide]
          simp [String.toList]
        have hm := matchBrewAt_plain pkg hne hpkg
        have hfind : findBrewMatch
            (("brew install " ++ "" ++ String.mk pkg).toList) =
              some ([], pkg) := by
          rw [hdata]
          rw [show ("brew install".toList : List Char) =
            'b' :: "rew install".toList from by decide] at hm ⊢
          rw [List.cons_append] at hm ⊢
          exact findBrewMatch_of_matchAt hm
        have hflag : (if (false : Bool) = true then "--cask " else "") = "" := rfl
        rw [hflag]
        simp only [deriveBrewCmd, hfind, Option.map_some']
        apply congrArg some
        apply String.ext
        simp [String.toList, String.data_append, List.append_assoc]
  · intro cfg o ts toolId tool cmd hfind hcmd
    simp only [doUninstallTool, hfind, hcmd]
    by_cases hs : (o.runS cmd ("tool-" ++ toolId)).succeeded <;> simp [hs]
  · intro cfg o ts toolId tool cmd hfind hcmd
    simp only [upgradeTool, hfind, hcmd]
    by_cases hs : (o.runS cmd ("tool-" ++ toolId)).succeeded <;> simp [hs]
  · intro cfg o ts toolId tool hfind hnone
    have hderU : deriveBrewCmd "uninstall" tool.install = none := by
      unfold deriveBrewCmd
      rw [hnone]
      rfl
    have hderG : deriveBrewCmd "upgrade" tool.install = none := by
      unfold deriveBrewCmd
      rw [hnone]
      rfl
    constructor
    · simp [doUninstallTool, hfind, hderU]
    · simp [upgradeTool, hfind, hderG]

/-- C6 witness: the theorem applied at a cask package `git` (derivation) and
at `itemRust`, whose rustup install command has no brew pattern (error path,
no spawn). -/
theorem C6_derive_commands_witness :
    ("git".toList ≠ ([] : List Char)) ∧
    deriveBrewCmd "uninstall"
        ("brew install " ++ (if true then "--cask " else "") ++
          String.mk "git".toList) =
      some ("brew " ++ "uninstall" ++ " " ++ (if true then "--cask " else "") ++
        String.mk "git".toList) ∧
    findBrewMatch itemRust.install.toList = none ∧
    (doUninstallTool cfgRust plainOracle [] "rust").2 =
      [Effect.warn ("Cannot uninstall " ++ itemRust.name ++
        ": no uninstall command available")] :=
  ⟨by decide,
    C6_derive_commands.1 "uninstall" true "git".toList (by decide) (by decide),
    by decide,
    (C6_derive_commands.2.2.2 cfgRust plainOracle [] "rust" itemRust
      (by decide) (by decide)).1⟩

/-! ## C7: config validation is all-or-nothing -/

theorem validateItem_eq_none_iff (sect : String) (k : Nat) (it : Item) :
    validateItem sect k it = none ↔ validFields it := by
  unfold validateItem validFields
  split_ifs with h1 h2 h3 h4 <;> simp_all

theorem validateItems_eq_none_iff (sect : String) (l : List Item) :
    ∀ k, validateItems sect k l = none ↔ ∀ it ∈ l, validFields it := by
  induction l with
  | nil => intro k; simp [validateItems]
  | cons it rest ih =>
      intro k
      simp only [validateItems]
      cases hv : validateItem sect k it with
      | some e =>
          have hnv : ¬ validFields it := fun hvf => by
            rw [(validateItem_eq_none_iff sect k it).mpr hvf] at hv
            cases hv
          simp [hnv]
      | none =>
          have hvf : validFields it := (validateItem_eq_none_iff sect k it).mp hv
          simp [ih (k + 1), hvf]

theorem validateItem_sound {sect : String} {k : Nat} {it : Item}
    {e : ConfigError} (h : validateItem sect k it = some e) :
    ∃ f, e = .itemError sect k it.id f ∧ fieldOf it f = "" := by
  unfold validateItem at h
  split_ifs at h with h1 h2 h3 h4
  · exact ⟨"id", (Option.some.inj h).symm, by simp [fieldOf, h1]⟩
  · exact ⟨"name", (Option.some.inj h).symm, by simp [fieldOf, h2]⟩
  · exact ⟨"check", (Option.some.inj h).symm, by simp [fieldOf, h3]⟩
  · exact ⟨"install", (Option.some.inj h).symm, by simp [fieldOf, h4]⟩

theorem validateItems_sound {sect : String} {l : List Item} {e : ConfigError} :
    ∀ {k : Nat}, validateItems sect k l = some e →
      ∃ (j : Nat) (hj : j < l.length) (f : String),
        e = .itemError sect (k + j) (l.get ⟨j, hj⟩).id f ∧
        fieldOf (l.get ⟨j, hj⟩) f = "" := by
  induction l with
  | nil => intro k h; simp [validateItems] at h
  | cons it rest ih =>
      intro k h
      simp only [validateItems] at h
      cases hv : validateItem sect k it with
      | some e' =>
          rw [hv] at h
          obtain ⟨f, he, hf⟩ := validateItem_sound hv
          refine ⟨0, by simp, f, ?_, by simpa using hf⟩
          simpa using (Option.some.inj h) ▸ he
      | none =>
          rw [hv] at h
          obtain ⟨j, hj, f, he, hf⟩ := ih h
          refine ⟨j + 1, by simpa using hj, f, ?_, by simpa using hf⟩
          have harith : (k + 1) + j = k + (j + 1) := by omega
          simpa [harith] using he

/-- C7: the load is all-or-nothing. (A) a successful validation returns the
document unchanged; (B) for a document of the right shape, validation passes
iff the name is non-empty and every entry of both sections has non-empty
`id`/`name`/`check`/`install`; (C) every item error names a real offending
entry (by section, index and id) and a field that is genuinely empty on that
entry; (D) on any validation error the renderer registers nothing — its state
is exactly the old state; (E) a document that is not an object with both
arrays present always fails. -/
theorem C7_validate_all_or_nothing :
    (∀ doc res, validateConfig doc = .ok res → res = doc) ∧
    (∀ name ds as',
      validateConfig (ConfigDoc.obj name (some ds) (some as')) =
          .ok (ConfigDoc.obj name (some ds) (some as')) ↔
        (name ≠ "" ∧ ∀ it ∈ ds ++ as', validFields it)) ∧
    (∀ doc sect i itemId f,
      validateConfig doc = .error (.itemError sect i itemId f) →
      ∃ name ds as' l, doc = ConfigDoc.obj name ds as' ∧
        ((sect = "dependencies" ∧ ds = some l) ∨
          (sect = "apps" ∧ as' = some l)) ∧
        ∃ hi : i < l.length, (l.get ⟨i, hi⟩).id = itemId ∧
          fieldOf (l.get ⟨i, hi⟩) f = "") ∧
    (∀ doc old e, validateConfig doc = .error e →
      loadConfigModel (loadFileIpc doc) old = (old, false)) ∧
    (∀ doc, (∀ name ds as', doc ≠ ConfigDoc.obj name (some ds) (some as')) →
      ∃ e, validateConfig doc = .error e) := by
  refine ⟨?_, ?_, ?_, ?_, ?_⟩
  · intro doc res h
    cases doc with
    | notObject => simp [validateConfig] at h
    | obj name deps apps =>
        by_cases hn : name = ""
        · simp [validateConfig, hn] at h
        · cases deps with
          | none => simp [validateConfig, hn] at h
          | some ds =>
              cases apps with
              | none => simp [validateConfig, hn] at h
              | some as' =>
                  simp only [validateConfig, if_neg hn] at h
                  cases hd : validateItems "dependencies" 0 ds with
                  | some e => rw [hd] at h; cases h
                  | none =>
                      rw [hd] at h
                      cases ha : validateItems "apps" 0 as' with
                      | some e => rw [ha] at h; cases h
                      | none =>
                          rw [ha] at h
                          exact (Except.ok.inj h).symm
  · intro name ds as'
    constructor
    · intro h
      by_cases hn : name = ""
      · simp [validateConfig, hn] at h
      · refine ⟨hn, ?_⟩
        simp only [validateConfig, if_neg hn] at h
        cases hd : validateItems "dependencies" 0 ds with
        | some e => rw [hd] at h; cases h
        | none =>
            rw [hd] at h
            cases ha : validateItems "apps" 0 as' with
            | some e => rw [ha] at h; cases h
            | none =>
                intro it hit
                rcases List.mem_append.mp hit with hmem | hmem
                · exact (validateItems_eq_none_iff "dependencies" ds 0).mp hd it hmem
                · exact (validateItems_eq_none_iff "apps" as' 0).mp ha it hmem
    · rintro ⟨hn, hall⟩
      have hd : validateItems "dependencies" 0 ds = none :=
        (validateItems_eq_none_iff "dependencies" ds 0).mpr
          (fun it hit => hall it (List.mem_append_left _ hit))
      have ha : validateItems "apps" 0 as' = none :=
        (validateItems_eq_none_iff "apps" as' 0).mpr
          (fun it hit => hall it (List.mem_append_right _ hit))
      simp [validateConfig, hn, hd, ha]
  · intro doc sect i itemId f h
    cases doc with
    | notObject => simp [validateConfig] at h
    | obj name deps apps =>
        by_cases hn : name = ""
        · simp [validateConfig, hn] at h
        · cases deps with
          | none => simp [validateConfig, hn] at h
          | some ds =>
              cases apps with
              | none => simp [validateConfig, hn] at h
              | some as' =>
                  simp only [validateConfig, if_neg hn] at h
                  cases hd : validateItems "dependencies" 0 ds with
                  | some e =>
                      rw [hd] at h
                      obtain ⟨j, hj, f', he, hf⟩ := validateItems_sound hd
                      have he2 : ConfigError.itemError sect i itemId f =
                          ConfigError.itemError "dependencies" (0 + j)
                            (ds.get ⟨j, hj⟩).id f' := by
                        rw [← he]
                        exact (Except.error.inj h).symm
                      obtain ⟨hsect, hij, hid, hff⟩ :
                          sect = "dependencies" ∧ i = 0 + j ∧
                            itemId = (ds.get ⟨j, hj⟩).id ∧ f = f' := by
                        injection he2 with h1 h2 h3 h4
                        exact ⟨h1, h2, h3, h4⟩
                      refine ⟨name, some ds, some as', ds, rfl,
                        Or.inl ⟨hsect, rfl⟩, ?_⟩
                      have hij' : i = j := by omega
                      subst hij'
                      exact ⟨hj, hid.symm, hff ▸ hf⟩
                  | none =>
                      rw [hd] at h
                      cases ha : validateItems "apps" 0 as' with
                      | some e =>
                          rw [ha] at h
                          obtain ⟨j, hj, f', he, hf⟩ := validateItems_sound ha
                          have he2 : ConfigError.itemError sect i itemId f =
                              ConfigError.itemError "apps" (0 + j)
                                (as'.get ⟨j, hj⟩).id f' := by
                            rw [← he]
                            exact (Except.error.inj h).symm
                          obtain ⟨hsect, hij, hid, hff⟩ :
                              sect = "apps" ∧ i = 0 + j ∧
                                itemId = (as'.get ⟨j, hj⟩).id ∧ f = f' := by
                            injection he2 with h1 h2 h3 h4
                            exact ⟨h1, h2, h3, h4⟩
                          refine ⟨name, some ds, some as', as', rfl,
                            Or.inr ⟨hsect, rfl⟩, ?_⟩
                          have hij' : i = j := by omega
                          subst hij'
                          exact ⟨hj, hid.symm, hff ▸ hf⟩
                      | none => rw [ha] at h; cases h
  · intro doc old e h
    unfold loadFileIpc
    rw [h]
    rfl
  · intro doc hshape
    cases doc with
    | notObject => exact ⟨.notObject, rfl⟩
    | obj name deps apps =>
        by_cases hn : name = ""
        · exact ⟨.missingName, by simp [validateConfig, hn]⟩
        · cases deps with
          | none => exact ⟨.missingDependencies, by simp [validateConfig, hn]⟩
          | some ds =>
              cases apps with
              | none => exact ⟨.missingApps, by simp [validateConfig, hn]⟩
              | some as' => exact absurd rfl (hshape name ds as')

/-- C7 witness: a fully valid document validates to itself unchanged; a
document whose first dependency entry has an empty `check` fails with an
error naming that entry and field, and the failed load leaves the renderer
state untouched. -/
theorem C7_validate_all_or_nothing_witness :
    validateConfig goodDoc = .ok goodDoc ∧
    validateConfig badItemDoc =
      .error (.itemError "dependencies" 0 "a" "check") ∧
    loadConfigModel (loadFileIpc badItemDoc) oldRendererState =
      (oldRendererState, false) :=
  ⟨(C7_validate_all_or_nothing.2.1 "Dev Setup" [itemA, itemB] []).mpr
      ⟨by decide, by decide⟩,
    rfl,
    C7_validate_all_or_nothing.2.2.2.1 badItemDoc oldRendererState
      (.itemError "dependencies" 0 "a" "check") rfl⟩

/-! ## C8: checkAll is idempotent on installed/checked status -/

theorem lookupState_setState_ne (ts : StateMap) {id k : String} (st : ItemState)
    (h : k ≠ id) : lookupState (setState ts id st) k = lookupState ts k := by
  induction ts with
  | nil => simp [setState, lookupState, Ne.symm h]
  | cons p rest ih =>
      obtain ⟨k', v⟩ := p
      by_cases hk : k' = id
      · subst hk
        simp [setState, lookupState, Ne.symm h]
      · simp [setState, hk, lookupState, ih]

theorem projSI_checkToolFastM (o : ShellOracle) (ts : StateMap) (t : Item)
    (id : String) :
    projSI (checkToolFastM o ts t) id =
      if t.id = id then some (.checked, (o.run t.check).succeeded)
      else projSI ts id := by
  unfold checkToolFastM projSI
  by_cases h : t.id = id
  · subst h
    rw [lookupState_setState_self]
    simp
  · rw [lookupState_setState_ne _ _ (fun hh => h hh.symm)]
    simp [h]

theorem projSI_foldl_checkFast (o : ShellOracle) (l : List Item) (id : String) :
    ∀ ts, projSI (l.foldl (checkToolFastM o) ts) id =
      match lastCheck l id with
      | some c => some (.checked, (o.run c).succeeded)
      | none => projSI ts id := by
  induction l with
  | nil => intro ts; simp [lastCheck]
  | cons t rest ih =>
      intro ts
      simp only [List.foldl_cons, lastCheck]
      rw [ih]
      cases hl : lastCheck rest id with
      | some c => simp
      | none =>
          simp only
          rw [projSI_checkToolFastM]
          by_cases h : t.id = id <;> simp [h]

theorem getInstalled_true_lookup {ts : StateMap} {id : String}
    (h : getInstalled ts id = true) :
    ∃ s, lookupState ts id = some s ∧ s.installed = true := by
  unfold getInstalled at h
  cases hl : lookupState ts id with
  | none => rw [hl] at h; simp at h
  | some s =>
      rw [hl] at h
      simp at h
      exact ⟨s, rfl, h⟩

theorem projSI_enrichToolM (o : ShellOracle) (m : StateMap) (t : Item)
    (id : String) : projSI (enrichToolM o m t) id = projSI m id := by
  unfold enrichToolM
  by_cases hg : getInstalled m t.id
  · rw [if_pos hg]
    obtain ⟨s, hs, _⟩ := getInstalled_true_lookup hg
    by_cases h : t.id = id
    · subst h
      unfold projSI
      rw [lookupState_setState_self, hs]
      simp [getOrInit, hs]
    · unfold projSI
      rw [lookupState_setState_ne _ _ (fun hh => h hh.symm)]
  · rw [if_neg hg]

theorem projSI_enrichAppM (o : ShellOracle) (m : StateMap) (t : Item)
    (id : String) : projSI (enrichAppM o m t) id = projSI m id := by
  unfold enrichAppM
  by_cases hg : getInstalled m t.id
  · rw [if_pos hg]
    obtain ⟨s, hs, _⟩ := getInstalled_true_lookup hg
    by_cases h : t.id = id
    · subst h
      unfold projSI
      rw [lookupState_setState_self, hs]
      simp [getOrInit, hs]
    · unfold projSI
      rw [lookupState_setState_ne _ _ (fun hh => h hh.symm)]
  · rw [if_neg hg]

theorem projSI_foldl_pointwise {enr : StateMap → Item → StateMap} {id : String}
    (henr : ∀ m t, projSI (enr m t) id = projSI m id) (l : List Item) :
    ∀ ts, projSI (l.foldl enr ts) id = projSI ts id := by
  induction l with
  | nil => intro ts; rfl
  | cons t rest ih =>
      intro ts
      simp only [List.foldl_cons]
      rw [ih, henr]

theorem lastCheck_none_notmem {l : List Item} {id : String}
    (h : lastCheck l id = none) : ∀ t ∈ l, t.id ≠ id := by
  induction l with
  | nil => simp
  | cons t rest ih =>
      intro t' ht'
      simp only [lastCheck] at h
      cases hl : lastCheck rest id with
      | some c => rw [hl] at h; cases h
      | none =>
          rw [hl] at h
          by_cases hid : t.id = id
          · rw [if_pos hid] at h; cases h
          · rcases List.mem_cons.mp ht' with rfl | hmem
            · exact hid
            · exact ih hl t' hmem

theorem lookupState_foldl_reset (l : List Item) (id : String)
    (hnot : ∀ t ∈ l, t.id ≠ id) :
    ∀ ts, lookupState
        (l.foldl (fun m t =>
          setState m t.id { status := .checking, installed := false }) ts) id =
      lookupState ts id := by
  induction l with
  | nil => intro ts; rfl
  | cons t rest ih =>
      intro ts
      simp only [List.foldl_cons]
      rw [ih (fun x hx => hnot x (List.mem_cons_of_mem t hx))]
      exact lookupState_setState_ne _ _
        (fun hh => hnot t (List.mem_cons_self t rest) hh.symm)

theorem checkPipeline_proj (o : ShellOracle) (l : List Item)
    (enr : StateMap → Item → StateMap) (ts : StateMap) (id : String)
    (henr : ∀ m t, projSI (enr m t) id = projSI m id) :
    projSI (checkPipeline o l enr ts) id =
      match lastCheck l id with
      | some c => some (.checked, (o.run c).succeeded)
      | none => projSI ts id := by
  unfold checkPipeline
  rw [projSI_foldl_pointwise henr, projSI_foldl_checkFast]
  cases hl : lastCheck l id with
  | some c => rfl
  | none =>
      simp only
      unfold projSI
      rw [lookupState_foldl_reset l id (lastCheck_none_notmem hl)]

/-- C8: `checkAll` is idempotent with respect to installed/checked status.
With the check-command results (the oracle) unchanged between runs, running
`checkAllTools` a second time produces, for every item id, the identical
status and installed flag in both stores as after the first run. -/
theorem C8_checkAll_idempotent (o : ShellOracle) (deps apps : List Item)
    (ts as' : StateMap) (id : String) :
    projSI ((checkAllToolsM o deps apps
        (checkAllToolsM o deps apps ts as').1
        (checkAllToolsM o deps apps ts as').2).1) id =
      projSI ((checkAllToolsM o deps apps ts as').1) id ∧
    projSI ((checkAllToolsM o deps apps
        (checkAllToolsM o deps apps ts as').1
        (checkAllToolsM o deps apps ts as').2).2) id =
      projSI ((checkAllToolsM o deps apps ts as').2) id := by
  have henrT : ∀ m t, projSI (enrichToolM o m t) id = projSI m id :=
    fun m t => projSI_enrichToolM o m t id
  have henrA : ∀ m t, projSI (enrichAppM o m t) id = projSI m id :=
    fun m t => projSI_enrichAppM o m t id
  constructor
  · simp only [checkAllToolsM]
    rw [checkPipeline_proj o deps _ _ id henrT]
    cases hl : lastCheck deps id with
    | some c => rw [checkPipeline_proj o deps _ _ id henrT, hl]
    | none => rfl
  · simp only [checkAllToolsM]
    rw [checkPipeline_proj o apps _ _ id henrA]
    cases hl : lastCheck apps id with
    | some c => rw [checkPipeline_proj o apps _ _ id henrA, hl]
    | none => rfl

/-! ## C10: the bundled config loads without validation -/

/-- C10: `config:loadBundled` returns the parsed document as-is, with no
validation — in particular a document missing `name`, `dependencies` and
`apps` loads successfully — while the same document loaded through
`config:loadFile` (or `config:loadURL`, which shares `validateConfig`) is
rejected. -/
theorem C10_bundled_skips_validation :
    (∀ d, loadBundledIpc d = .ok d) ∧
    loadBundledIpc badDoc = .ok badDoc ∧
    loadFileIpc badDoc = .err ConfigError.missingName := by
  refine ⟨fun d => rfl, rfl, ?_⟩
  rfl

end Onboard
